import Mathlib

/-!
Verification of the persistence layer in src/dopplerr/db.py (class DopplerrDb
and its peewee model classes Events, SeriesMedias, SeriesSubtitles).

Shallow embedding conventions:
* The database content is an explicit state (structure Db): one list of rows
  per table, in insertion (rowid) order, plus the autoincrement counter that
  backs the SeriesMedias primary key.
* Wall-clock time (datetime.datetime.now, used as the default value of the
  timestamp columns) is passed to each operation as an explicit argument of
  type DateTime.
* peewee Model.get(**kwargs) is modelled as finding the first row whose named
  fields equal the given values; nullable columns are Option values and a
  None argument matches a NULL column.  Model.create appends a fresh row,
  Model.save is an UPDATE of every row carrying the instance's primary key.
* SQL SELECT with ORDER BY and LIMIT is modelled as sorting the row list with
  a structural insertion sort and truncating with List.take; Python sorted on
  strings is the lexicographic order on code points, modelled by the
  Mathlib lexicographic order on the underlying character lists.
* A Python exception escaping an operation (assert failure, missing file at
  unlink time, the NOT NULL violation on the subtitle foreign key) makes the
  operation return Except.error, leaving the state unchanged.
-/

deriving instance DecidableEq for Except

namespace Dopplerr

/-- A datetime.datetime value, compared lexicographically by its fields
(year, month, day, hour, minute, second, microsecond), which is exactly the
chronological order. -/
structure DateTime where
  year : Nat
  month : Nat
  day : Nat
  hour : Nat
  minute : Nat
  second : Nat
  microsecond : Nat
deriving DecidableEq, Repr

/-- Field list of a DateTime, used to compare values lexicographically. -/
def DateTime.toList (t : DateTime) : List Nat :=
  [t.year, t.month, t.day, t.hour, t.minute, t.second, t.microsecond]

instance : LE DateTime := ⟨fun a b => a.toList ≤ b.toList⟩

instance : LT DateTime := ⟨fun a b => a.toList < b.toList⟩

instance (a b : DateTime) : Decidable (a ≤ b) :=
  inferInstanceAs (Decidable (a.toList ≤ b.toList))

instance (a b : DateTime) : Decidable (a < b) :=
  inferInstanceAs (Decidable (a.toList < b.toList))

/-- Zero-padding to two digits, as strftime does for the fields
m, d, H, M and S. -/
def pad2 (n : Nat) : String :=
  if n < 10 then "0" ++ toString n else toString n

/-- Zero-padding to four digits, as strftime does for the year field. -/
def pad4 (n : Nat) : String :=
  if n < 10 then "000" ++ toString n
  else if n < 100 then "00" ++ toString n
  else if n < 1000 then "0" ++ toString n
  else toString n

/-- strftime with the format used throughout db.py, that is
the pattern Y-m-dTH:M:S: second precision, no timezone, the microsecond
field is dropped. -/
def formatTimestamp (t : DateTime) : String :=
  pad4 t.year ++ "-" ++ pad2 t.month ++ "-" ++ pad2 t.day ++ "T" ++
    pad2 t.hour ++ ":" ++ pad2 t.minute ++ ":" ++ pad2 t.second

/-- A row of the Events table (model class Events in db.py). -/
structure Events where
  timestamp : DateTime
  type : String
  message : String
deriving DecidableEq, Repr

/-- A row of the SeriesMedias table (model class SeriesMedias in db.py).
The id field is the PrimaryKeyField; the three integer columns and all the
descriptive string columns are nullable, media_filename is not. -/
structure SeriesMedias where
  id : Nat
  tv_db_id : Option Int
  season_number : Option Int
  episode_number : Option Int
  added_timestamp : DateTime
  series_title : Option String
  episode_title : Option String
  quality : Option String
  video_languages : Option String
  dirty : Bool
  media_filename : String
deriving DecidableEq, Repr

/-- A row of the SeriesSubtitles table (model class SeriesSubtitles in
db.py); series_media is the foreign key, holding the id of the owning
SeriesMedias row. -/
structure SeriesSubtitles where
  added_timestamp : DateTime
  series_media : Nat
  language : String
deriving DecidableEq, Repr

/-- The content of the sqlite database file: the three tables, each a list of
rows in insertion (rowid) order, and the autoincrement counter backing the
SeriesMedias primary key. -/
structure Db where
  events : List Events
  medias : List SeriesMedias
  subtitles : List SeriesSubtitles
  nextMediaId : Nat
deriving DecidableEq, Repr

/-- The (tv_db_id, season_number, episode_number) triple identifying one
episode, as passed to update_fetched_series_subtitles. -/
structure SeriesEpisodeUid where
  tv_db_id : Option Int
  season_number : Option Int
  episode_number : Option Int
deriving DecidableEq, Repr

/-- The WHERE clause of the Model.get call inside update_series_media:
a row matches when its four identity-key columns equal the given values. -/
def mediaKeyMatches (tv_db_id season_number episode_number : Option Int)
    (media_filename : String) (m : SeriesMedias) : Bool :=
  m.tv_db_id == tv_db_id && m.season_number == season_number &&
    m.episode_number == episode_number && m.media_filename == media_filename

/-- The WHERE clause of the SeriesMedias.select inside
update_fetched_series_subtitles: filename is not part of this key. -/
def uidMatches (uid : SeriesEpisodeUid) (m : SeriesMedias) : Bool :=
  m.tv_db_id == uid.tv_db_id && m.season_number == uid.season_number &&
    m.episode_number == uid.episode_number

/-- The WHERE clause of the SeriesSubtitles get-or-create: a subtitle row
matches on its (series_media, language) pair. -/
def subtitleKeyMatches (mediaId : Nat) (lang : String)
    (s : SeriesSubtitles) : Bool :=
  s.series_media == mediaId && s.language == lang

/-- Model.save on a SeriesMedias instance: an UPDATE of every row whose
primary key equals the instance's id (in any reachable state ids are unique,
so exactly the row the instance was loaded from). -/
def saveMedia (m : SeriesMedias) (db : Db) : Db :=
  { db with medias := db.medias.map fun x => if x.id = m.id then m else x }

/-- The row SeriesMedias.create inserts when no row matches the key: the
key columns are set from the kwargs and every other column takes its
default (added_timestamp defaults to now, dirty defaults to true, the
descriptive columns to NULL); the primary key comes from the autoincrement
counter. -/
def freshMedia (now : DateTime) (tv_db_id season_number episode_number : Option Int)
    (media_filename : String) (i : Nat) : SeriesMedias :=
  { id := i, tv_db_id := tv_db_id, season_number := season_number,
    episode_number := episode_number, added_timestamp := now, series_title := none,
    episode_title := none, quality := none, video_languages := none, dirty := true,
    media_filename := media_filename }

/-- DopplerrDb._get_or_create applied to SeriesMedias with the four
identity-key columns as kwargs: Model.get returns the first matching row;
on DoesNotExist, Model.create inserts a fresh row.  Returns the row, the
created flag and the resulting state. -/
def _get_or_create_media (now : DateTime) (tv_db_id season_number episode_number : Option Int)
    (media_filename : String) (db : Db) : SeriesMedias × Bool × Db :=
  match db.medias.find? (mediaKeyMatches tv_db_id season_number episode_number media_filename) with
  | some m => (m, false, db)
  | none =>
    let m := freshMedia now tv_db_id season_number episode_number media_filename db.nextMediaId
    (m, true, { db with medias := db.medias ++ [m], nextMediaId := db.nextMediaId + 1 })

/-- The unconditional field assignments of update_series_media, applied to
the row returned by get-or-create before it is saved. -/
def overwriteMedia (series_title episode_title quality video_languages : Option String)
    (dirty : Bool) (media_filename : String) (m : SeriesMedias) : SeriesMedias :=
  { m with
    series_title := series_title
    episode_title := episode_title
    quality := quality
    video_languages := video_languages
    dirty := dirty
    media_filename := media_filename }

/-- DopplerrDb.update_series_media: the assert on media_filename (an empty
string is falsy, so the call raises before touching the database), then
get-or-create on the identity key, then the unconditional overwrite of the
descriptive fields, the dirty flag and the filename, then save. -/
def update_series_media (now : DateTime) (series_title : Option String)
    (tv_db_id season_number episode_number : Option Int)
    (episode_title quality video_languages : Option String)
    (media_filename : String) (dirty : Bool) (db : Db) : Except String Db :=
  if media_filename = "" then .error "media_filename cannot be None"
  else
    let r := _get_or_create_media now tv_db_id season_number episode_number media_filename db
    let media := r.1
    let db1 := r.2.2
    .ok (saveMedia
      (overwriteMedia series_title episode_title quality video_languages dirty media_filename media)
      db1)

/-- The subtitle loop of update_fetched_series_subtitles: for each language
in order, get-or-create a SeriesSubtitles row keyed on (series_media,
language).  The series_media value passed by db.py is the SeriesMedias
select itself; it is modelled as the first row matching the episode triple
(the reference associates the new rows with a single unspecified
representative of the match set).  When the match set is empty the create
step violates the NOT NULL constraint on the foreign key and the whole call
raises. -/
def _get_or_create_subtitles (now : DateTime) (mediaId : Option Nat)
    (subtitles_languages : List String) (subs : List SeriesSubtitles) :
    Except String (List SeriesSubtitles) :=
  match subtitles_languages with
  | [] => .ok subs
  | lang :: rest =>
    match mediaId with
    | none => .error "NOT NULL constraint failed: seriessubtitles.series_media_id"
    | some mid =>
      if (subs.find? (subtitleKeyMatches mid lang)).isSome then
        _get_or_create_subtitles now mediaId rest subs
      else
        _get_or_create_subtitles now mediaId rest
          (subs ++ [{ added_timestamp := now, series_media := mid, language := lang }])

/-- DopplerrDb.update_fetched_series_subtitles: select the SeriesMedias rows
matching the episode triple, get-or-create one subtitle row per language,
then set the dirty flag on every matched media row and save each. -/
def update_fetched_series_subtitles (now : DateTime) (uid : SeriesEpisodeUid)
    (subtitles_languages : List String) (dirty : Bool) (db : Db) : Except String Db :=
  let repId := (db.medias.find? (uidMatches uid)).map fun m => m.id
  match _get_or_create_subtitles now repId subtitles_languages db.subtitles with
  | .error e => .error e
  | .ok subs =>
    .ok { db with
      subtitles := subs
      medias := db.medias.map fun m => if uidMatches uid m then { m with dirty := dirty } else m }

/-- DopplerrDb.insert_event: Events.create with the timestamp defaulted to
the current time. -/
def insert_event (now : DateTime) (thetype message : String) (db : Db) : Db :=
  { db with events := db.events ++ [{ timestamp := now, type := thetype, message := message }] }

/-- One record of the list returned by get_recent_events. -/
structure EventRecord where
  timestamp : String
  type : String
  message : String
deriving DecidableEq, Repr

/-- The projection get_recent_events applies to each Events row. -/
def renderEvent (e : Events) : EventRecord :=
  { timestamp := formatTimestamp e.timestamp, type := e.type, message := e.message }

/-- ORDER BY timestamp DESC as a relation on Events rows. -/
def eventDesc (a b : Events) : Prop := b.timestamp ≤ a.timestamp

instance : DecidableRel eventDesc :=
  fun a b => inferInstanceAs (Decidable (b.timestamp ≤ a.timestamp))

/-- DopplerrDb.get_recent_events: ORDER BY timestamp DESC, LIMIT, then the
per-row projection with the strftime pattern Y-m-dTH:M:S. -/
def get_recent_events (limit : Nat) (db : Db) : List EventRecord :=
  ((List.insertionSort eventDesc db.events).take limit).map renderEvent

/-- Lexicographic order on strings by code points: the order Python sorted
uses on str, and the order sqlite uses on TEXT with default collation. -/
def strLe (a b : String) : Prop := a.data ≤ b.data

instance : DecidableRel strLe :=
  fun a b => inferInstanceAs (Decidable (a.data ≤ b.data))

/-- sqlite ordering on a nullable TEXT column: NULL sorts before every
value, non-NULL values compare as strings. -/
def nullsFirstLe (a b : Option String) : Prop :=
  match a, b with
  | none, _ => True
  | some _, none => False
  | some x, some y => strLe x y

instance : ∀ a b : Option String, Decidable (nullsFirstLe a b)
  | none, _ => isTrue trivial
  | some _, none => isFalse fun h => h
  | some x, some y => inferInstanceAs (Decidable (strLe x y))

/-- ORDER BY series_title DESC as a relation on SeriesMedias rows (with
sqlite NULL placement: NULL titles come last in descending order). -/
def mediaTitleDesc (a b : SeriesMedias) : Prop :=
  nullsFirstLe b.series_title a.series_title

instance : DecidableRel mediaTitleDesc :=
  fun a b => inferInstanceAs (Decidable (nullsFirstLe b.series_title a.series_title))

/-- One record of the list returned by get_medias_series. -/
structure MediaRecord where
  added_timestamp : String
  series_title : Option String
  season_number : Option Int
  episode_number : Option Int
  episode_title : Option String
  quality : Option String
  video_languages : Option String
  subtitle_languages : List String
  dirty : Bool
deriving DecidableEq, Repr

/-- DopplerrDb.get_medias_series: ORDER BY series_title DESC, LIMIT 100,
then the per-row projection; subtitle_languages is the Python sorted of the
languages of the subtitles backref (the subtitle rows whose foreign key is
this row's id). -/
def get_medias_series (db : Db) : List MediaRecord :=
  let limit := 100
  ((List.insertionSort mediaTitleDesc db.medias).take limit).map fun med =>
    { added_timestamp := formatTimestamp med.added_timestamp,
      series_title := med.series_title,
      season_number := med.season_number,
      episode_number := med.episode_number,
      episode_title := med.episode_title,
      quality := med.quality,
      video_languages := med.video_languages,
      subtitle_languages :=
        List.insertionSort strLe
          ((db.subtitles.filter fun s => s.series_media == med.id).map fun s => s.language),
      dirty := med.dirty }

/-- DopplerrDb.media_exists: SELECT media_filename WHERE media_filename
equals the argument, converted to bool (nonempty result set). -/
def media_exists (media_filename : String) (db : Db) : Bool :=
  !(db.medias.filter fun m => m.media_filename == media_filename).isEmpty

/-- The connection-manager state of the DopplerrDb singleton: the recorded
database file path (None until init is called). -/
structure DopplerrDb where
  sqlite_db_path : Option String
deriving DecidableEq, Repr

/-- pathlib.Path.unlink on a filesystem modelled as the list of existing
file paths: removes the file, and raises FileNotFoundError when the file
does not exist (this Python version has no missing-ok parameter). -/
def unlink (p : String) (fs : List String) : Except String (List String) :=
  if p ∈ fs then .ok (fs.erase p) else .error "FileNotFoundError"

/-- DopplerrDb.init: records the target file path, then, when reset_db is
set, unlinks the existing database file; an exception from unlink
propagates and initialization fails. -/
def init (st : DopplerrDb) (sqlite_db_path : String) (reset_db : Bool)
    (fs : List String) : Except String (DopplerrDb × List String) :=
  let st1 : DopplerrDb := { st with sqlite_db_path := some sqlite_db_path }
  if reset_db then
    match unlink sqlite_db_path fs with
    | .ok fs1 => .ok (st1, fs1)
    | .error e => .error e
  else .ok (st1, fs)

/-- Number of SeriesMedias rows carrying a given identity key. -/
def countKey (tv_db_id season_number episode_number : Option Int)
    (media_filename : String) (medias : List SeriesMedias) : Nat :=
  medias.countP (mediaKeyMatches tv_db_id season_number episode_number media_filename)

/-- Well-formedness of the primary key column: ids are pairwise distinct and
below the autoincrement counter.  Every state reachable from an empty
database satisfies this, since create always uses the counter and bumps it. -/
def mediaIdsOk (db : Db) : Prop :=
  db.medias.Pairwise (fun a b => a.id ≠ b.id) ∧ ∀ m ∈ db.medias, m.id < db.nextMediaId

/-- The invariant of claim C1: no two SeriesSubtitles rows share a
(series_media, language) pair. -/
def noDuplicateSubtitleKeys (subs : List SeriesSubtitles) : Prop :=
  subs.Pairwise fun a b => ¬(a.series_media = b.series_media ∧ a.language = b.language)

instance : IsTotal Events eventDesc :=
  ⟨fun a b => (le_total b.timestamp.toList a.timestamp.toList).imp (fun h => h) fun h => h⟩

instance : IsTrans Events eventDesc :=
  ⟨fun a b c h1 h2 => show c.timestamp.toList ≤ a.timestamp.toList from
    le_trans (show c.timestamp.toList ≤ b.timestamp.toList from h2)
      (show b.timestamp.toList ≤ a.timestamp.toList from h1)⟩

instance : IsTotal String strLe := ⟨fun a b => le_total a.data b.data⟩

instance : IsTrans String strLe := ⟨fun a b c h1 h2 =>
  le_trans (show a.data ≤ b.data from h1) (show b.data ≤ c.data from h2)⟩

instance : IsTotal (Option String) nullsFirstLe := ⟨by
  intro a b
  cases a with
  | none => exact Or.inl trivial
  | some x =>
    cases b with
    | none => exact Or.inr trivial
    | some y => exact (le_total x.data y.data).imp (fun h => h) fun h => h⟩

instance : IsTrans (Option String) nullsFirstLe := ⟨by
  intro a b c h1 h2
  cases a with
  | none => exact trivial
  | some x =>
    cases b with
    | none => exact absurd h1 fun h => h
    | some y =>
      cases c with
      | none => exact absurd h2 fun h => h
      | some z => exact le_trans (show x.data ≤ y.data from h1) (show y.data ≤ z.data from h2)⟩

instance : IsTotal SeriesMedias mediaTitleDesc :=
  ⟨fun a b => (total_of nullsFirstLe b.series_title a.series_title).imp (fun h => h) fun h => h⟩

instance : IsTrans SeriesMedias mediaTitleDesc :=
  ⟨fun _ _ _ h1 h2 => trans_of nullsFirstLe h2 h1⟩

/-! Concrete states used to instantiate the theorems. -/

def wNow : DateTime := ⟨2017, 10, 12, 8, 30, 0, 0⟩

def wLater : DateTime := ⟨2017, 10, 12, 8, 31, 0, 0⟩

def wEmptyDb : Db := ⟨[], [], [], 0⟩

def wRowNullKey : SeriesMedias :=
  ⟨0, none, none, none, wNow, some "T", none, some "1080p", none, true, "ep2.mkv"⟩

def wDbNullKey : Db := ⟨[], [wRowNullKey], [], 1⟩

def wRow720 : SeriesMedias :=
  ⟨0, some 100, some 1, some 2, wNow, some "T", none, some "720p", none, true, "ep2.mkv"⟩

def wRow1080 : SeriesMedias :=
  ⟨0, some 100, some 1, some 2, wNow, some "T", none, some "1080p", none, true, "ep2.mkv"⟩

def wDb720 : Db := ⟨[], [wRow720], [], 1⟩

def wDb1080 : Db := ⟨[], [wRow1080], [], 1⟩

def wRowA : SeriesMedias :=
  ⟨0, some 100, some 1, some 2, wNow, some "T", none, none, none, false, "a.mkv"⟩

def wRowB : SeriesMedias :=
  ⟨1, some 200, some 1, some 1, wNow, some "U", none, none, none, false, "b.mkv"⟩

def wDbTwo : Db := ⟨[], [wRowA, wRowB], [], 2⟩

def wUid : SeriesEpisodeUid := ⟨some 100, some 1, some 2⟩

def wDbTwoAfter : Db :=
  ⟨[], [{ wRowA with dirty := true }, wRowB], [⟨wLater, 0, "en"⟩], 2⟩

def wRowFrame : SeriesMedias :=
  ⟨0, none, none, none, wNow, some "T2", some "E", some "720p", none, false, "ep2.mkv"⟩

def wDbFrame : Db := ⟨[], [wRowFrame], [], 1⟩

def wDbOneEvent : Db := ⟨[⟨wNow, "grab", "m0"⟩], [], [], 0⟩

/-! Generic list lemmas used by the per-claim proofs. -/

theorem DateTime.ltLeAsymm {a b : DateTime} (h1 : a < b) (h2 : b ≤ a) : False :=
  absurd (lt_of_lt_of_le (show a.toList < b.toList from h1) (show b.toList ≤ a.toList from h2))
    (lt_irrefl a.toList)

/-- A list holding two distinct elements satisfying a predicate counts the
predicate at least twice. -/
theorem countP_two_le {α : Type} {p : α → Bool} {l : List α} {a b : α}
    (ha : a ∈ l) (hb : b ∈ l) (hab : a ≠ b) (hpa : p a = true) (hpb : p b = true) :
    2 ≤ l.countP p := by
  induction l with
  | nil => cases ha
  | cons x xs ih =>
    rw [List.countP_cons]
    rcases List.mem_cons.mp ha with rfl | ha2
    · rcases List.mem_cons.mp hb with rfl | hb2
      · exact absurd rfl hab
      · have h1 : 0 < xs.countP p := List.countP_pos_iff.mpr ⟨b, hb2, hpb⟩
        rw [if_pos hpa]
        omega
    · rcases List.mem_cons.mp hb with rfl | hb2
      · have h1 : 0 < xs.countP p := List.countP_pos_iff.mpr ⟨a, ha2, hpa⟩
        rw [if_pos hpb]
        omega
      · have h2 := ih ha2 hb2
        omega

/-- Substituting one row by id inside a list: when the first match of a
predicate is the row carrying the substituted id and the replacement also
satisfies the predicate, the substituted list's first match is the
replacement. -/
theorem find?_map_ite (l : List SeriesMedias) (p : SeriesMedias → Bool) (i : Nat)
    (m m2 : SeriesMedias) (hfind : l.find? p = some m) (hid : m.id = i)
    (hp : p m2 = true) :
    (l.map fun x => if x.id = i then m2 else x).find? p = some m2 := by
  induction l with
  | nil => simp at hfind
  | cons x xs ih =>
    rw [List.find?_cons] at hfind
    by_cases hx : p x = true
    · simp [hx] at hfind
      subst hfind
      simp only [List.map_cons, hid, if_pos rfl]
      rw [List.find?_cons]
      simp [hp]
    · simp [hx] at hfind
      simp only [List.map_cons]
      by_cases hxi : x.id = i
      · simp only [if_pos hxi]
        rw [List.find?_cons]
        simp [hp]
      · simp only [if_neg hxi]
        rw [List.find?_cons]
        simp only [hx]
        exact ih hfind

/-- Mapping a function that agrees with another on every element of the
list gives the same result. -/
theorem map_congr_mem {α β : Type} {l : List α} {f g : α → β}
    (h : ∀ x ∈ l, f x = g x) : l.map f = l.map g := by
  induction l with
  | nil => rfl
  | cons x xs ih =>
    simp only [List.map_cons]
    rw [h x (List.mem_cons_self x xs), ih fun y hy => h y (List.mem_cons_of_mem x hy)]

/-- Substituting a row by an id carried by no element of the list is the
identity. -/
theorem map_ite_id {l : List SeriesMedias} {i : Nat} {m2 : SeriesMedias}
    (h : ∀ x ∈ l, x.id ≠ i) : (l.map fun x => if x.id = i then m2 else x) = l := by
  induction l with
  | nil => rfl
  | cons x xs ih =>
    simp only [List.map_cons]
    rw [if_neg (h x (List.mem_cons_self x xs)), ih fun y hy => h y (List.mem_cons_of_mem x hy)]

/-- In a list with pairwise-distinct ids, two members with the same id are
the same row. -/
theorem id_inj_of_pairwise {l : List SeriesMedias}
    (hp : l.Pairwise fun a b => a.id ≠ b.id) {x y : SeriesMedias}
    (hx : x ∈ l) (hy : y ∈ l) (hxy : x.id = y.id) : x = y := by
  induction l with
  | nil => cases hx
  | cons z zs ih =>
    rcases List.pairwise_cons.mp hp with ⟨hz, hzs⟩
    rcases List.mem_cons.mp hx with rfl | hx2
    · rcases List.mem_cons.mp hy with rfl | hy2
      · rfl
      · exact absurd hxy (hz y hy2)
    · rcases List.mem_cons.mp hy with rfl | hy2
      · exact absurd hxy.symm (hz x hx2)
      · exact ih hzs hx2 hy2

/-! Characterization of update_series_media. -/

/-- The overwrite keeps the identity key: the key columns other than the
filename are untouched and the filename is rewritten to the key's own
value. -/
theorem mediaKeyMatches_overwriteMedia {tvid sn en : Option Int} {fn : String}
    {m : SeriesMedias} (hm : mediaKeyMatches tvid sn en fn m = true)
    (st et q vl : Option String) (d : Bool) :
    mediaKeyMatches tvid sn en fn (overwriteMedia st et q vl d fn m) = true := by
  simp only [mediaKeyMatches, overwriteMedia, Bool.and_eq_true, beq_iff_eq] at hm ⊢
  exact ⟨⟨⟨hm.1.1.1, hm.1.1.2⟩, hm.1.2⟩, by simp⟩

/-- update_series_media when a row with the identity key exists: the result
is the save of the overwritten first matching row. -/
theorem update_series_media_ok_found {db : Db} {tvid sn en : Option Int} {fn : String}
    {m : SeriesMedias} (now : DateTime) (st et q vl : Option String) (d : Bool)
    (hfind : db.medias.find? (mediaKeyMatches tvid sn en fn) = some m) (hfn : fn ≠ "") :
    update_series_media now st tvid sn en et q vl fn d db =
      .ok (saveMedia (overwriteMedia st et q vl d fn m) db) := by
  simp only [update_series_media, _get_or_create_media, hfind, if_neg hfn]

/-- update_series_media when no row with the identity key exists and the
next primary-key value is fresh: the result appends one overwritten fresh
row and bumps the counter. -/
theorem update_series_media_ok_create {db : Db} {tvid sn en : Option Int} {fn : String}
    (now : DateTime) (st et q vl : Option String) (d : Bool)
    (hfind : db.medias.find? (mediaKeyMatches tvid sn en fn) = none) (hfn : fn ≠ "")
    (hids : ∀ x ∈ db.medias, x.id ≠ db.nextMediaId) :
    update_series_media now st tvid sn en et q vl fn d db =
      .ok { db with
        medias := db.medias ++
          [overwriteMedia st et q vl d fn (freshMedia now tvid sn en fn db.nextMediaId)]
        nextMediaId := db.nextMediaId + 1 } := by
  simp only [update_series_media, _get_or_create_media, hfind, if_neg hfn, saveMedia,
    List.map_append]
  have hid2 : (overwriteMedia st et q vl d fn (freshMedia now tvid sn en fn db.nextMediaId)).id =
      db.nextMediaId := rfl
  rw [hid2, map_ite_id hids]
  simp [overwriteMedia, freshMedia]

/-- The overwritten fresh row matches the identity key it was created
from. -/
theorem mediaKeyMatches_fresh (now : DateTime) (tvid sn en : Option Int) (fn : String)
    (st et q vl : Option String) (d : Bool) (i : Nat) :
    mediaKeyMatches tvid sn en fn
      (overwriteMedia st et q vl d fn (freshMedia now tvid sn en fn i)) = true := by
  simp [mediaKeyMatches, overwriteMedia, freshMedia]

/-- A call of update_series_media that returns a state was made with a
nonempty filename. -/
theorem update_series_media_ok_fn_ne {db db' : Db} {now : DateTime}
    {st et q vl : Option String} {tvid sn en : Option Int} {fn : String} {d : Bool}
    (h : update_series_media now st tvid sn en et q vl fn d db = .ok db') : fn ≠ "" := by
  intro h0
  rw [h0] at h
  simp [update_series_media] at h

/-- Case analysis on a successful update_series_media call: either a row
with the key existed and the result is the save of its overwrite, or none
did and the result appends one overwritten fresh row (assuming the
autoincrement counter is fresh). -/
theorem update_series_media_ok_cases {db db' : Db} {now : DateTime}
    {st et q vl : Option String} {tvid sn en : Option Int} {fn : String} {d : Bool}
    (hids : ∀ x ∈ db.medias, x.id ≠ db.nextMediaId)
    (h : update_series_media now st tvid sn en et q vl fn d db = .ok db') :
    (∃ m, db.medias.find? (mediaKeyMatches tvid sn en fn) = some m ∧
        db' = saveMedia (overwriteMedia st et q vl d fn m) db) ∨
      (db.medias.find? (mediaKeyMatches tvid sn en fn) = none ∧
        db' = { db with
          medias := db.medias ++
            [overwriteMedia st et q vl d fn (freshMedia now tvid sn en fn db.nextMediaId)]
          nextMediaId := db.nextMediaId + 1 }) := by
  have hfn := update_series_media_ok_fn_ne h
  cases hf : db.medias.find? (mediaKeyMatches tvid sn en fn) with
  | some m =>
    rw [update_series_media_ok_found now st et q vl d hf hfn] at h
    injection h with h2
    exact Or.inl ⟨m, rfl, h2.symm⟩
  | none =>
    rw [update_series_media_ok_create now st et q vl d hf hfn hids] at h
    injection h with h2
    exact Or.inr ⟨rfl, h2.symm⟩

/-- update_series_media keeps the primary-key column well formed. -/
theorem update_series_media_preserves_mediaIdsOk {db db' : Db} {now : DateTime}
    {st et q vl : Option String} {tvid sn en : Option Int} {fn : String} {d : Bool}
    (hids : mediaIdsOk db)
    (h : update_series_media now st tvid sn en et q vl fn d db = .ok db') :
    mediaIdsOk db' := by
  have hfresh : ∀ x ∈ db.medias, x.id ≠ db.nextMediaId :=
    fun x hx => Nat.ne_of_lt (hids.2 x hx)
  rcases update_series_media_ok_cases hfresh h with ⟨m, _, rfl⟩ | ⟨_, rfl⟩
  · have hfid : ∀ x : SeriesMedias,
        (if x.id = (overwriteMedia st et q vl d fn m).id then overwriteMedia st et q vl d fn m
          else x).id = x.id := by
      intro x
      by_cases hx : x.id = (overwriteMedia st et q vl d fn m).id
      · rw [if_pos hx]
        exact hx.symm
      · rw [if_neg hx]
    constructor
    · simp only [saveMedia]
      rw [List.pairwise_map]
      refine hids.1.imp ?_
      intro a b hab
      simpa only [hfid] using hab
    · intro y hy
      simp only [saveMedia] at hy
      rcases List.mem_map.mp hy with ⟨x, hx, rfl⟩
      show (if x.id = (overwriteMedia st et q vl d fn m).id then _ else x).id < db.nextMediaId
      rw [hfid x]
      exact hids.2 x hx
  · constructor
    · refine List.pairwise_append.mpr ⟨hids.1, List.pairwise_singleton _ _, ?_⟩
      intro a ha b hb
      rw [List.mem_singleton.mp hb]
      exact hfresh a ha
    · intro y hy
      rcases List.mem_append.mp hy with hy2 | hy2
      · exact Nat.lt_succ_of_lt (hids.2 y hy2)
      · rw [List.mem_singleton.mp hy2]
        exact Nat.lt_succ_self _

/-- After a successful update_series_media on a state whose key was held by
at most one row, exactly one row holds the key. -/
theorem update_series_media_countKey {db db' : Db} {now : DateTime}
    {st et q vl : Option String} {tvid sn en : Option Int} {fn : String} {d : Bool}
    (hids : mediaIdsOk db)
    (hcount : countKey tvid sn en fn db.medias ≤ 1)
    (h : update_series_media now st tvid sn en et q vl fn d db = .ok db') :
    countKey tvid sn en fn db'.medias = 1 := by
  have hfresh : ∀ x ∈ db.medias, x.id ≠ db.nextMediaId :=
    fun x hx => Nat.ne_of_lt (hids.2 x hx)
  rcases update_series_media_ok_cases hfresh h with ⟨m, hf, rfl⟩ | ⟨hf, rfl⟩
  · have hkm : mediaKeyMatches tvid sn en fn m = true := List.find?_some hf
    have hmem : m ∈ db.medias := List.mem_of_find?_eq_some hf
    have hpos : 0 < countKey tvid sn en fn db.medias :=
      List.countP_pos_iff.mpr ⟨m, hmem, hkm⟩
    have heq : countKey tvid sn en fn (saveMedia (overwriteMedia st et q vl d fn m) db).medias =
        countKey tvid sn en fn db.medias := by
      simp only [countKey, saveMedia, List.countP_map]
      refine List.countP_congr ?_
      intro x hx
      by_cases hxi : x.id = (overwriteMedia st et q vl d fn m).id
      · have hxm : x = m := id_inj_of_pairwise hids.1 hx hmem hxi
        subst hxm
        simp only [Function.comp, if_pos hxi]
        rw [mediaKeyMatches_overwriteMedia hkm, hkm]
      · simp only [Function.comp, if_neg hxi]
    rw [heq]
    omega
  · have hzero : countKey tvid sn en fn db.medias = 0 :=
      List.countP_eq_zero.mpr (List.find?_eq_none.mp hf)
    show countKey tvid sn en fn (db.medias ++ _) = 1
    simp only [countKey, List.countP_append] at hzero ⊢
    rw [hzero]
    simp [List.countP_cons, mediaKeyMatches_fresh]

/-- Repeating a successful update_series_media with the same arguments (at
a possibly different wall-clock time) leaves the state fixed. -/
theorem update_series_media_idem {db db' : Db} {now : DateTime}
    {st et q vl : Option String} {tvid sn en : Option Int} {fn : String} {d : Bool}
    (now2 : DateTime) (hids : mediaIdsOk db)
    (h : update_series_media now st tvid sn en et q vl fn d db = .ok db') :
    update_series_media now2 st tvid sn en et q vl fn d db' = .ok db' := by
  have hfn := update_series_media_ok_fn_ne h
  have hfresh : ∀ x ∈ db.medias, x.id ≠ db.nextMediaId :=
    fun x hx => Nat.ne_of_lt (hids.2 x hx)
  rcases update_series_media_ok_cases hfresh h with ⟨m, hf, rfl⟩ | ⟨hf, rfl⟩
  · have hkm : mediaKeyMatches tvid sn en fn m = true := List.find?_some hf
    have hM2 : mediaKeyMatches tvid sn en fn (overwriteMedia st et q vl d fn m) = true :=
      mediaKeyMatches_overwriteMedia hkm st et q vl d
    have hfind2 : (saveMedia (overwriteMedia st et q vl d fn m) db).medias.find?
        (mediaKeyMatches tvid sn en fn) = some (overwriteMedia st et q vl d fn m) :=
      find?_map_ite db.medias (mediaKeyMatches tvid sn en fn)
        (overwriteMedia st et q vl d fn m).id m (overwriteMedia st et q vl d fn m) hf rfl hM2
    rw [update_series_media_ok_found now2 st et q vl d hfind2 hfn]
    have hOO : overwriteMedia st et q vl d fn (overwriteMedia st et q vl d fn m) =
        overwriteMedia st et q vl d fn m := rfl
    rw [hOO]
    congr 1
    simp only [saveMedia, List.map_map]
    congr 1
    refine map_congr_mem ?_
    intro x _
    simp only [Function.comp]
    by_cases hxi : x.id = (overwriteMedia st et q vl d fn m).id
    · rw [if_pos hxi]
      rw [if_pos rfl]
    · rw [if_neg hxi, if_neg hxi]
  · set M2 := overwriteMedia st et q vl d fn (freshMedia now tvid sn en fn db.nextMediaId) with hM2def
    have hkM2 : mediaKeyMatches tvid sn en fn M2 = true :=
      mediaKeyMatches_fresh now tvid sn en fn st et q vl d db.nextMediaId
    have hfind2 : (db.medias ++ [M2]).find? (mediaKeyMatches tvid sn en fn) = some M2 := by
      rw [List.find?_append, hf]
      simp [List.find?_cons, hkM2]
    rw [update_series_media_ok_found now2 st et q vl d hfind2 hfn]
    have hOO : overwriteMedia st et q vl d fn M2 = M2 := rfl
    rw [hOO]
    congr 1
    simp only [saveMedia, List.map_append]
    have hMid : M2.id = db.nextMediaId := rfl
    have h1 : (db.medias.map fun x => if x.id = M2.id then M2 else x) = db.medias := by
      refine map_ite_id ?_
      intro x hx
      rw [hMid]
      exact hfresh x hx
    rw [h1]
    simp

/-- After a successful update_series_media on a well-formed state whose key
was held by at most one row, every row holding the key carries exactly the
call's field values. -/
theorem update_series_media_fields {db db' : Db} {now : DateTime}
    {st et q vl : Option String} {tvid sn en : Option Int} {fn : String} {d : Bool}
    (hids : mediaIdsOk db)
    (hcount : countKey tvid sn en fn db.medias ≤ 1)
    (h : update_series_media now st tvid sn en et q vl fn d db = .ok db') :
    ∀ x ∈ db'.medias, mediaKeyMatches tvid sn en fn x = true →
      x.series_title = st ∧ x.episode_title = et ∧ x.quality = q ∧
        x.video_languages = vl ∧ x.dirty = d ∧ x.media_filename = fn := by
  have hfresh : ∀ x ∈ db.medias, x.id ≠ db.nextMediaId :=
    fun x hx => Nat.ne_of_lt (hids.2 x hx)
  rcases update_series_media_ok_cases hfresh h with ⟨m, hf, rfl⟩ | ⟨hf, rfl⟩
  · have hkm : mediaKeyMatches tvid sn en fn m = true := List.find?_some hf
    have hmem : m ∈ db.medias := List.mem_of_find?_eq_some hf
    intro x hx hkx
    simp only [saveMedia] at hx
    rcases List.mem_map.mp hx with ⟨y, hy, rfl⟩
    by_cases hyi : y.id = (overwriteMedia st et q vl d fn m).id
    · rw [if_pos hyi]
      exact ⟨rfl, rfl, rfl, rfl, rfl, rfl⟩
    · rw [if_neg hyi] at hkx ⊢
      have hym : y ≠ m := by
        intro h0
        rw [h0] at hyi
        exact hyi rfl
      have h2 : 2 ≤ countKey tvid sn en fn db.medias :=
        countP_two_le hy hmem hym hkx hkm
      omega
  · have hzero : countKey tvid sn en fn db.medias = 0 :=
      List.countP_eq_zero.mpr (List.find?_eq_none.mp hf)
    intro x hx hkx
    rcases List.mem_append.mp hx with hx2 | hx2
    · have : 0 < countKey tvid sn en fn db.medias := List.countP_pos_iff.mpr ⟨x, hx2, hkx⟩
      omega
    · rw [List.mem_singleton.mp hx2]
      exact ⟨rfl, rfl, rfl, rfl, rfl, rfl⟩

/-- A successful update_series_media leaves at least one row holding the
identity key (no well-formedness assumptions needed). -/
theorem update_series_media_exists_key {db db' : Db} {now : DateTime}
    {st et q vl : Option String} {tvid sn en : Option Int} {fn : String} {d : Bool}
    (h : update_series_media now st tvid sn en et q vl fn d db = .ok db') :
    ∃ x ∈ db'.medias, mediaKeyMatches tvid sn en fn x = true := by
  have hfn := update_series_media_ok_fn_ne h
  cases hf : db.medias.find? (mediaKeyMatches tvid sn en fn) with
  | some m =>
    rw [update_series_media_ok_found now st et q vl d hf hfn] at h
    injection h with h2
    subst h2
    have hmem : m ∈ db.medias := List.mem_of_find?_eq_some hf
    refine ⟨overwriteMedia st et q vl d fn m, ?_, ?_⟩
    · simp only [saveMedia]
      refine List.mem_map.mpr ⟨m, hmem, ?_⟩
      rw [if_pos (show m.id = (overwriteMedia st et q vl d fn m).id from rfl)]
    · exact mediaKeyMatches_overwriteMedia (List.find?_some hf) st et q vl d
  | none =>
    simp only [update_series_media, _get_or_create_media, hf, if_neg hfn] at h
    injection h with h2
    subst h2
    set M2 := overwriteMedia st et q vl d fn (freshMedia now tvid sn en fn db.nextMediaId)
      with hM2def
    refine ⟨M2, ?_, mediaKeyMatches_fresh now tvid sn en fn st et q vl d db.nextMediaId⟩
    simp only [saveMedia]
    refine List.mem_map.mpr ⟨freshMedia now tvid sn en fn db.nextMediaId, ?_, ?_⟩
    · simp
    · rw [if_pos (show (freshMedia now tvid sn en fn db.nextMediaId).id = M2.id from rfl)]

/-! Characterization of update_fetched_series_subtitles. -/

/-- A successful subtitle loop preserves the no-duplicate invariant and
realizes set union: afterwards a (media, language) pair is present iff it
was present before or it is the representative id paired with one of the
requested languages. -/
theorem _get_or_create_subtitles_spec (now : DateTime) (mid : Nat) :
    ∀ (langs : List String) (subs subs2 : List SeriesSubtitles),
      noDuplicateSubtitleKeys subs →
      _get_or_create_subtitles now (some mid) langs subs = .ok subs2 →
      noDuplicateSubtitleKeys subs2 ∧
        ∀ i l, (∃ s ∈ subs2, s.series_media = i ∧ s.language = l) ↔
          ((∃ s ∈ subs, s.series_media = i ∧ s.language = l) ∨ (i = mid ∧ l ∈ langs)) := by
  intro langs
  induction langs with
  | nil =>
    intro subs subs2 hinv h
    simp only [_get_or_create_subtitles] at h
    injection h with h2
    subst h2
    refine ⟨hinv, ?_⟩
    intro i l
    simp
  | cons lang rest ih =>
    intro subs subs2 hinv h
    simp only [_get_or_create_subtitles] at h
    by_cases hfound : (subs.find? (subtitleKeyMatches mid lang)).isSome
    · rw [if_pos hfound] at h
      obtain ⟨s0, hs0⟩ := Option.isSome_iff_exists.mp hfound
      have hs0mem : s0 ∈ subs := List.mem_of_find?_eq_some hs0
      have hs0key : s0.series_media = mid ∧ s0.language = lang := by
        have := List.find?_some hs0
        simpa [subtitleKeyMatches, Bool.and_eq_true, beq_iff_eq] using this
      obtain ⟨hinv2, hiff⟩ := ih subs subs2 hinv h
      refine ⟨hinv2, ?_⟩
      intro i l
      rw [hiff i l]
      constructor
      · rintro (hp | ⟨hi, hl⟩)
        · exact Or.inl hp
        · exact Or.inr ⟨hi, List.mem_cons_of_mem _ hl⟩
      · rintro (hp | ⟨hi, hl⟩)
        · exact Or.inl hp
        · rcases List.mem_cons.mp hl with hleq | hl2
          · exact Or.inl ⟨s0, hs0mem, hs0key.1.trans hi.symm, hs0key.2.trans hleq.symm⟩
          · exact Or.inr ⟨hi, hl2⟩
    · rw [if_neg hfound] at h
      have hnone : subs.find? (subtitleKeyMatches mid lang) = none :=
        Option.not_isSome_iff_eq_none.mp hfound
      have hnokey : ∀ s ∈ subs, ¬(s.series_media = mid ∧ s.language = lang) := by
        intro s hs hpair
        have := List.find?_eq_none.mp hnone s hs
        apply this
        simp [subtitleKeyMatches, Bool.and_eq_true, beq_iff_eq, hpair.1, hpair.2]
      have hinv2 : noDuplicateSubtitleKeys
          (subs ++ [{ added_timestamp := now, series_media := mid, language := lang }]) := by
        refine List.pairwise_append.mpr ⟨hinv, List.pairwise_singleton _ _, ?_⟩
        intro a ha b hb
        rw [List.mem_singleton.mp hb]
        intro hpair
        exact hnokey a ha ⟨hpair.1, hpair.2⟩
      obtain ⟨hinv3, hiff⟩ := ih _ subs2 hinv2 h
      refine ⟨hinv3, ?_⟩
      intro i l
      rw [hiff i l]
      constructor
      · rintro (hp | ⟨hi, hl⟩)
        · rcases hp with ⟨s, hs, hsp⟩
          rcases List.mem_append.mp hs with hs2 | hs2
          · exact Or.inl ⟨s, hs2, hsp⟩
          · rw [List.mem_singleton.mp hs2] at hsp
            refine Or.inr ⟨hsp.1.symm, ?_⟩
            rw [← hsp.2]
            exact List.mem_cons_self _ _
        · exact Or.inr ⟨hi, List.mem_cons_of_mem _ hl⟩
      · rintro (hp | ⟨hi, hl⟩)
        · rcases hp with ⟨s, hs, hsp⟩
          exact Or.inl ⟨s, List.mem_append.mpr (Or.inl hs), hsp⟩
        · rcases List.mem_cons.mp hl with hleq | hl2
          · refine Or.inl ⟨{ added_timestamp := now, series_media := mid, language := lang },
              List.mem_append.mpr (Or.inr (List.mem_singleton.mpr rfl)), hi.symm, hleq.symm⟩
          · exact Or.inr ⟨hi, hl2⟩

/-- Eliminating a successful update_fetched_series_subtitles call into its
two effects: the new subtitle list produced by the language loop and the
dirty-flag rewrite of every matched media row. -/
theorem update_fetched_series_subtitles_ok_elim {db db' : Db} {now : DateTime}
    {uid : SeriesEpisodeUid} {langs : List String} {d : Bool}
    (h : update_fetched_series_subtitles now uid langs d db = .ok db') :
    ∃ subs2,
      _get_or_create_subtitles now ((db.medias.find? (uidMatches uid)).map fun m => m.id)
          langs db.subtitles = .ok subs2 ∧
      db' = { db with
        subtitles := subs2
        medias := db.medias.map fun m =>
          if uidMatches uid m then { m with dirty := d } else m } := by
  simp only [update_fetched_series_subtitles] at h
  cases hg : _get_or_create_subtitles now ((db.medias.find? (uidMatches uid)).map fun m => m.id)
      langs db.subtitles with
  | error e =>
    rw [hg] at h
    exact absurd h (by simp)
  | ok subs2 =>
    rw [hg] at h
    injection h with h2
    exact ⟨subs2, rfl, h2.symm⟩

/-- When no media row matches the episode triple, a successful call had an
empty language list and left the subtitle table unchanged. -/
theorem _get_or_create_subtitles_none {now : DateTime} {langs : List String}
    {subs subs2 : List SeriesSubtitles}
    (h : _get_or_create_subtitles now none langs subs = .ok subs2) :
    langs = [] ∧ subs2 = subs := by
  cases langs with
  | nil =>
    simp only [_get_or_create_subtitles] at h
    injection h with h2
    exact ⟨rfl, h2.symm⟩
  | cons lang rest =>
    simp only [_get_or_create_subtitles] at h
    exact absurd h (by simp)

/-! Ordering facts about the read queries. -/

/-- Sorting in descending timestamp order puts an element that is strictly
newer than every other element at the head. -/
theorem insertionSort_eventDesc_cons {l : List Events} {x : Events} (hx : x ∈ l)
    (hmax : ∀ y ∈ l, y ≠ x → y.timestamp < x.timestamp) :
    ∃ t, List.insertionSort eventDesc l = x :: t := by
  have hperm := List.perm_insertionSort eventDesc l
  have hsorted := List.sorted_insertionSort eventDesc l
  have hxs : x ∈ List.insertionSort eventDesc l := hperm.mem_iff.mpr hx
  cases hs : List.insertionSort eventDesc l with
  | nil =>
    rw [hs] at hxs
    cases hxs
  | cons hd t =>
    rw [hs] at hxs hsorted hperm
    have hht : ∀ b ∈ t, eventDesc hd b := List.rel_of_sorted_cons hsorted
    have hhl : hd ∈ l := hperm.mem_iff.mp (List.mem_cons_self hd t)
    by_cases hhx : hd = x
    · exact ⟨t, by rw [hhx]⟩
    · have h1 : hd.timestamp < x.timestamp := hmax hd hhl hhx
      rcases List.mem_cons.mp hxs with h2 | h2
      · exact absurd h2.symm hhx
      · exact absurd (hht x h2) fun h3 => DateTime.ltLeAsymm h1 h3

/-- Helper: media_exists is true exactly when some row carries the
filename. -/
theorem media_exists_iff (f : String) (db : Db) :
    media_exists f db = true ↔ ∃ m ∈ db.medias, m.media_filename = f := by
  simp [media_exists, List.filter_eq_nil_iff, List.isEmpty_iff]

/-! The claims. -/

/-- C1: for every episode UID and any sequence of
update_fetched_series_subtitles calls (in particular two calls with
overlapping language sequences), subtitle creation is a find-or-create
with set-union semantics: a successful call preserves the invariant that
no two SeriesSubtitles rows exist for the same (series_media, language)
pair, and the pairs present afterwards are exactly the pairs present
before together with (representative-media id, language) for each
requested language. -/
theorem update_fetched_series_subtitles_no_duplicates {db db' : Db} {now : DateTime}
    {uid : SeriesEpisodeUid} {langs : List String} {d : Bool}
    (hinv : noDuplicateSubtitleKeys db.subtitles)
    (h : update_fetched_series_subtitles now uid langs d db = .ok db') :
    noDuplicateSubtitleKeys db'.subtitles ∧
      ∀ i l, (∃ s ∈ db'.subtitles, s.series_media = i ∧ s.language = l) ↔
        ((∃ s ∈ db.subtitles, s.series_media = i ∧ s.language = l) ∨
          (((db.medias.find? (uidMatches uid)).map fun m => m.id) = some i ∧ l ∈ langs)) := by
  rcases update_fetched_series_subtitles_ok_elim h with ⟨subs2, hg, hdb⟩
  have hS : db'.subtitles = subs2 := by rw [hdb]
  cases hrep : db.medias.find? (uidMatches uid) with
  | none =>
    rw [hrep] at hg
    obtain ⟨hlangs, hsubs⟩ := _get_or_create_subtitles_none hg
    constructor
    · rw [hS, hsubs]
      exact hinv
    · intro i l
      rw [hS, hsubs, hlangs]
      simp
  | some m0 =>
    rw [hrep] at hg
    obtain ⟨hinv2, hiff⟩ := _get_or_create_subtitles_spec now m0.id langs db.subtitles subs2 hinv hg
    constructor
    · rw [hS]
      exact hinv2
    · intro i l
      rw [hS, hiff i l]
      constructor
      · rintro (hp2 | ⟨hi, hl⟩)
        · exact Or.inl hp2
        · refine Or.inr ⟨?_, hl⟩
          simp [hi]
      · rintro (hp2 | ⟨hi, hl⟩)
        · exact Or.inl hp2
        · simp only [Option.map_some'] at hi
          injection hi with hi2
          exact Or.inr ⟨hi2.symm, hl⟩

/-- C4: after a completed update_fetched_series_subtitles call, for every
language sequence (including the empty one), every SeriesMedias row
matching the episode UID has its dirty flag set to the dirty argument
(its other columns untouched), and every row not matching the UID is
unchanged. -/
theorem update_fetched_series_subtitles_dirty {db db' : Db} {now : DateTime}
    {uid : SeriesEpisodeUid} {langs : List String} {d : Bool}
    (h : update_fetched_series_subtitles now uid langs d db = .ok db') :
    db'.medias.length = db.medias.length ∧
      ∀ p ∈ db.medias.zip db'.medias,
        (uidMatches uid p.1 = true → p.2 = { p.1 with dirty := d }) ∧
        (uidMatches uid p.1 = false → p.2 = p.1) := by
  rcases update_fetched_series_subtitles_ok_elim h with ⟨subs2, hg, hdb⟩
  have hM : db'.medias = db.medias.map fun m =>
      if uidMatches uid m then { m with dirty := d } else m := by rw [hdb]
  constructor
  · rw [hM, List.length_map]
  · rw [hM]
    have hz : db.medias.zip (db.medias.map fun m =>
        if uidMatches uid m then { m with dirty := d } else m) =
        db.medias.map fun m => (m, if uidMatches uid m then { m with dirty := d } else m) := by
      have h2 := List.zip_map' id
        (fun m => if uidMatches uid m then { m with dirty := d } else m) db.medias
      rwa [List.map_id] at h2
    rw [hz]
    intro p hp
    rcases List.mem_map.mp hp with ⟨m, _, rfl⟩
    constructor
    · intro hu
      rw [if_pos hu]
    · intro hu
      rw [if_neg (by simp [hu])]

/-- C7: update_series_media called with an empty media_filename fails at
the call boundary with the assert message, returning no new state: no
SeriesMedias row is created or modified. -/
theorem update_series_media_empty_filename (now : DateTime) (st : Option String)
    (tvid sn en : Option Int) (et q vl : Option String) (d : Bool) (db : Db) :
    update_series_media now st tvid sn en et q vl "" d db =
      .error "media_filename cannot be None" := by
  simp [update_series_media]

/-- C9: init with reset requested deletes the existing database file before
first open, and when the deletion fails because the file does not exist the
filesystem error propagates and initialization fails rather than being
treated as a no-op. -/
theorem init_reset_spec (st : DopplerrDb) (p : String) (fs : List String) :
    (p ∈ fs → init st p true fs =
      .ok ({ st with sqlite_db_path := some p }, fs.erase p)) ∧
    (p ∉ fs → init st p true fs = .error "FileNotFoundError") := by
  constructor
  · intro hmem
    simp [init, unlink, hmem]
  · intro hmem
    simp [init, unlink, hmem]

/-- C2: update_series_media is idempotent on unchanged inputs, for every
identity key including keys with NULL-valued components: repeating a
successful call with the same key and field values (at any wall-clock
time) returns the same state unchanged, and that state holds exactly one
SeriesMedias row with the key (in a well-formed state whose key was held
by at most one row, as find-or-create maintains). -/
theorem update_series_media_idempotent {db db' : Db} {st et q vl : Option String}
    {tvid sn en : Option Int} {fn : String} {d : Bool} (now now2 : DateTime)
    (hids : mediaIdsOk db)
    (hcount : countKey tvid sn en fn db.medias ≤ 1)
    (h : update_series_media now st tvid sn en et q vl fn d db = .ok db') :
    update_series_media now2 st tvid sn en et q vl fn d db' = .ok db' ∧
      countKey tvid sn en fn db'.medias = 1 :=
  ⟨update_series_media_idem now2 hids h, update_series_media_countKey hids hcount h⟩

/-- C3: calling update_series_media twice with the same identity key and
possibly different field values (in particular different quality values)
leaves exactly one row with that key, and every row with that key carries
the second call's quality, descriptive fields and dirty flag:
last-write-wins per identity key. -/
theorem update_series_media_last_write_wins {db db1 db2 : Db}
    {st1 et1 q1 vl1 st2 et2 q2 vl2 : Option String} {tvid sn en : Option Int}
    {fn : String} {d1 d2 : Bool} (now1 now2 : DateTime)
    (hids : mediaIdsOk db)
    (hcount : countKey tvid sn en fn db.medias ≤ 1)
    (h1 : update_series_media now1 st1 tvid sn en et1 q1 vl1 fn d1 db = .ok db1)
    (h2 : update_series_media now2 st2 tvid sn en et2 q2 vl2 fn d2 db1 = .ok db2) :
    countKey tvid sn en fn db2.medias = 1 ∧
      ∀ x ∈ db2.medias, mediaKeyMatches tvid sn en fn x = true →
        x.quality = q2 ∧ x.series_title = st2 ∧ x.episode_title = et2 ∧
          x.video_languages = vl2 ∧ x.dirty = d2 := by
  have hids1 : mediaIdsOk db1 := update_series_media_preserves_mediaIdsOk hids h1
  have hc1 : countKey tvid sn en fn db1.medias ≤ 1 :=
    le_of_eq (update_series_media_countKey hids hcount h1)
  refine ⟨update_series_media_countKey hids1 hc1 h2, ?_⟩
  intro x hx hk
  obtain ⟨hst, het, hq, hvl, hd, _⟩ := update_series_media_fields hids1 hc1 h2 x hx hk
  exact ⟨hq, hst, het, hvl, hd⟩

/-- C10: when update_series_media matches an existing row, that row keeps
its added_timestamp (set once at creation) together with its id and key
columns, only the descriptive fields, the dirty flag and the filename are
rewritten, and every other row is untouched. -/
theorem update_series_media_frame {db db' : Db} {now : DateTime}
    {st et q vl : Option String} {tvid sn en : Option Int} {fn : String} {d : Bool}
    {m : SeriesMedias} (hids : mediaIdsOk db)
    (hfound : db.medias.find? (mediaKeyMatches tvid sn en fn) = some m)
    (h : update_series_media now st tvid sn en et q vl fn d db = .ok db') :
    db'.medias = (db.medias.map fun x =>
        if x.id = m.id then overwriteMedia st et q vl d fn m else x) ∧
      (∀ x ∈ db'.medias, x.id = m.id →
        x.added_timestamp = m.added_timestamp ∧ x.tv_db_id = m.tv_db_id ∧
          x.season_number = m.season_number ∧ x.episode_number = m.episode_number ∧
          x.series_title = st ∧ x.episode_title = et ∧ x.quality = q ∧
          x.video_languages = vl ∧ x.dirty = d ∧ x.media_filename = fn) ∧
      ∀ x ∈ db.medias, x.id ≠ m.id → x ∈ db'.medias := by
  have hfresh : ∀ x ∈ db.medias, x.id ≠ db.nextMediaId :=
    fun x hx => Nat.ne_of_lt (hids.2 x hx)
  rcases update_series_media_ok_cases hfresh h with ⟨m2, hf2, rfl⟩ | ⟨hf2, hdb⟩
  · rw [hfound] at hf2
    injection hf2 with hf3
    subst hf3
    refine ⟨rfl, ?_, ?_⟩
    · intro x hx hxid
      simp only [saveMedia] at hx
      rcases List.mem_map.mp hx with ⟨y, hy, rfl⟩
      by_cases hyi : y.id = (overwriteMedia st et q vl d fn m).id
      · rw [if_pos hyi]
        exact ⟨rfl, rfl, rfl, rfl, rfl, rfl, rfl, rfl, rfl, rfl⟩
      · rw [if_neg hyi] at hxid
        exact absurd hxid hyi
    · intro x hx hxm
      simp only [saveMedia]
      exact List.mem_map.mpr ⟨x, hx, if_neg hxm⟩
  · rw [hfound] at hf2
    exact absurd hf2 (by simp)

/-- C5: get_medias_series returns at most 100 records regardless of the
number of stored rows, the records are ordered by series_title descending
(with the sqlite placement of NULL titles), and each record's
subtitle_languages list is lexicographically sorted. -/
theorem get_medias_series_spec (db : Db) :
    (get_medias_series db).length ≤ 100 ∧
      List.Sorted (fun a b : MediaRecord => nullsFirstLe b.series_title a.series_title)
        (get_medias_series db) ∧
      ∀ r ∈ get_medias_series db, List.Sorted strLe r.subtitle_languages := by
  refine ⟨?_, ?_, ?_⟩
  · simp only [get_medias_series]
    rw [List.length_map, List.length_take]
    exact inf_le_left
  · simp only [get_medias_series]
    have hP : List.Pairwise mediaTitleDesc
        ((List.insertionSort mediaTitleDesc db.medias).take 100) :=
      List.Pairwise.sublist (List.take_sublist _ _)
        (List.sorted_insertionSort mediaTitleDesc db.medias)
    exact List.Pairwise.map _ (fun a b hab => hab) hP
  · intro r hr
    simp only [get_medias_series] at hr
    rcases List.mem_map.mp hr with ⟨med, _, rfl⟩
    exact List.sorted_insertionSort strLe _

/-- C6: media_exists is true exactly when at least one SeriesMedias row
has exactly the given filename; in particular it is false while no row has
the filename and true immediately after any successful update_series_media
call with it. -/
theorem media_exists_spec (f : String) (db : Db) :
    (media_exists f db = true ↔ ∃ m ∈ db.medias, m.media_filename = f) ∧
      ∀ (now : DateTime) (st : Option String) (tvid sn en : Option Int)
        (et q vl : Option String) (d : Bool) (db' : Db),
        update_series_media now st tvid sn en et q vl f d db = .ok db' →
        media_exists f db' = true := by
  refine ⟨media_exists_iff f db, ?_⟩
  intro now st tvid sn en et q vl d db' h
  rcases update_series_media_exists_key h with ⟨x, hx, hk⟩
  have hfn : x.media_filename = f := by
    simp only [mediaKeyMatches, Bool.and_eq_true, beq_iff_eq] at hk
    exact hk.2
  exact (media_exists_iff f db').mpr ⟨x, hx, hfn⟩

/-- C8: get_recent_events returns the stored events most-recent-first by
timestamp, truncated to the limit, each record carrying the stored type
and message exactly and the timestamp rendered at second precision without
timezone; and right after insert_event (whose timestamp is fresher than
every stored one) the new event is returned first for any limit of at
least one. -/
theorem get_recent_events_spec (limit : Nat) (db : Db) (now : DateTime) (ty msg : String)
    (hfresh : ∀ e ∈ db.events, e.timestamp < now) (hlim : 1 ≤ limit) :
    (∃ sorted : List Events, sorted.Perm db.events ∧
        List.Sorted (fun a b : Events => b.timestamp ≤ a.timestamp) sorted ∧
        get_recent_events limit db = (sorted.take limit).map renderEvent) ∧
      (get_recent_events limit db).length ≤ limit ∧
      (get_recent_events limit (insert_event now ty msg db)).head? =
        some { timestamp := formatTimestamp now, type := ty, message := msg } := by
  refine ⟨⟨List.insertionSort eventDesc db.events, List.perm_insertionSort _ _,
    List.sorted_insertionSort eventDesc db.events, rfl⟩, ?_, ?_⟩
  · simp only [get_recent_events]
    rw [List.length_map, List.length_take]
    exact inf_le_left
  · have hx : ({ timestamp := now, type := ty, message := msg } : Events) ∈
        db.events ++ [{ timestamp := now, type := ty, message := msg }] :=
      List.mem_append.mpr (Or.inr (List.mem_singleton.mpr rfl))
    have hmax : ∀ y ∈ db.events ++ [{ timestamp := now, type := ty, message := msg }],
        y ≠ { timestamp := now, type := ty, message := msg } →
        y.timestamp < ({ timestamp := now, type := ty, message := msg } : Events).timestamp := by
      intro y hy hne
      rcases List.mem_append.mp hy with hy2 | hy2
      · exact hfresh y hy2
      · exact absurd (List.mem_singleton.mp hy2) hne
    obtain ⟨t, ht⟩ := insertionSort_eventDesc_cons hx hmax
    simp only [get_recent_events, insert_event]
    rw [ht]
    cases limit with
    | zero => omega
    | succ k =>
      rw [List.take_succ_cons]
      rfl

/-! Witnesses: each theorem above instantiated at a concrete state, with
its hypotheses discharged by evaluation. -/

/-- Witness for C1 at a concrete state: one media row matches the UID, the
call creates one subtitle row. -/
theorem update_fetched_series_subtitles_no_duplicates_witness :
    noDuplicateSubtitleKeys wDbTwoAfter.subtitles ∧
      ∀ i l, (∃ s ∈ wDbTwoAfter.subtitles, s.series_media = i ∧ s.language = l) ↔
        ((∃ s ∈ wDbTwo.subtitles, s.series_media = i ∧ s.language = l) ∨
          (((wDbTwo.medias.find? (uidMatches wUid)).map fun m => m.id) = some i ∧
            l ∈ ["en"])) :=
  @update_fetched_series_subtitles_no_duplicates wDbTwo wDbTwoAfter wLater wUid ["en"] true
    List.Pairwise.nil (by decide)

/-- Witness for C2 at a key whose three integer components are NULL. -/
theorem update_series_media_idempotent_witness :
    update_series_media wLater (some "T") none none none none (some "1080p") none
        "ep2.mkv" true wDbNullKey = .ok wDbNullKey ∧
      countKey none none none "ep2.mkv" wDbNullKey.medias = 1 :=
  @update_series_media_idempotent wEmptyDb wDbNullKey (some "T") none (some "1080p") none
    none none none "ep2.mkv" true wNow wLater ⟨by decide, by decide⟩ (by decide) (by decide)

/-- Witness for C3: the same key written with quality 720p then 1080p. -/
theorem update_series_media_last_write_wins_witness :
    countKey (some 100) (some 1) (some 2) "ep2.mkv" wDb1080.medias = 1 ∧
      ∀ x ∈ wDb1080.medias, mediaKeyMatches (some 100) (some 1) (some 2) "ep2.mkv" x = true →
        x.quality = some "1080p" ∧ x.series_title = some "T" ∧ x.episode_title = none ∧
          x.video_languages = none ∧ x.dirty = true :=
  @update_series_media_last_write_wins wEmptyDb wDb720 wDb1080 (some "T") none (some "720p")
    none (some "T") none (some "1080p") none (some 100) (some 1) (some 2) "ep2.mkv" true true
    wNow wLater ⟨by decide, by decide⟩ (by decide) (by decide) (by decide)

/-- Witness for C4: one matching and one non-matching media row. -/
theorem update_fetched_series_subtitles_dirty_witness :
    wDbTwoAfter.medias.length = wDbTwo.medias.length ∧
      ∀ p ∈ wDbTwo.medias.zip wDbTwoAfter.medias,
        (uidMatches wUid p.1 = true → p.2 = { p.1 with dirty := true }) ∧
        (uidMatches wUid p.1 = false → p.2 = p.1) :=
  @update_fetched_series_subtitles_dirty wDbTwo wDbTwoAfter wLater wUid ["en"] true (by decide)

/-- Witness for C5 at a populated state. -/
theorem get_medias_series_spec_witness : (get_medias_series wDbTwoAfter).length ≤ 100 :=
  (get_medias_series_spec wDbTwoAfter).1

/-- Witness for C6: the filename exists right after the inserting call. -/
theorem media_exists_spec_witness : media_exists "ep2.mkv" wDbNullKey = true :=
  (media_exists_spec "ep2.mkv" wEmptyDb).2 wNow (some "T") none none none none
    (some "1080p") none true wDbNullKey (by decide)

/-- Witness for C7: the empty filename is rejected. -/
theorem update_series_media_empty_filename_witness :
    update_series_media wNow none none none none none none none "" true wEmptyDb =
      .error "media_filename cannot be None" :=
  update_series_media_empty_filename wNow none none none none none none none true wEmptyDb

/-- Witness for C8 at a state holding one older event. -/
theorem get_recent_events_spec_witness :
    (∃ sorted : List Events, sorted.Perm wDbOneEvent.events ∧
        List.Sorted (fun a b : Events => b.timestamp ≤ a.timestamp) sorted ∧
        get_recent_events 1 wDbOneEvent = (sorted.take 1).map renderEvent) ∧
      (get_recent_events 1 wDbOneEvent).length ≤ 1 ∧
      (get_recent_events 1 (insert_event wLater "download" "msg" wDbOneEvent)).head? =
        some { timestamp := formatTimestamp wLater, type := "download", message := "msg" } :=
  get_recent_events_spec 1 wDbOneEvent wLater "download" "msg" (by decide) (by decide)

/-- Witness for C9: resetting over a missing database file fails. -/
theorem init_reset_spec_witness :
    init ⟨none⟩ "db.sqlite" true [] = .error "FileNotFoundError" :=
  (init_reset_spec ⟨none⟩ "db.sqlite" []).2 (by decide)

/-- Witness for C10: rewriting the existing row keeps its creation
timestamp. -/
theorem update_series_media_frame_witness :
    wDbFrame.medias = (wDbNullKey.medias.map fun x =>
        if x.id = wRowNullKey.id then
          overwriteMedia (some "T2") (some "E") (some "720p") none false "ep2.mkv" wRowNullKey
        else x) ∧
      (∀ x ∈ wDbFrame.medias, x.id = wRowNullKey.id →
        x.added_timestamp = wRowNullKey.added_timestamp ∧ x.tv_db_id = wRowNullKey.tv_db_id ∧
          x.season_number = wRowNullKey.season_number ∧
          x.episode_number = wRowNullKey.episode_number ∧
          x.series_title = some "T2" ∧ x.episode_title = some "E" ∧ x.quality = some "720p" ∧
          x.video_languages = none ∧ x.dirty = false ∧ x.media_filename = "ep2.mkv") ∧
      ∀ x ∈ wDbNullKey.medias, x.id ≠ wRowNullKey.id → x ∈ wDbFrame.medias :=
  @update_series_media_frame wDbNullKey wDbFrame wLater (some "T2") (some "E") (some "720p")
    none none none none "ep2.mkv" false wRowNullKey ⟨by decide, by decide⟩ (by decide)
    (by decide)

end Dopplerr
